import Mathlib

set_option maxHeartbeats 1000000

/-!
Shallow embedding of the erb-num2csv tool (`src/lib.rs`).

The tool loads `INDEX,NAME` tables ("CSV files", one per variable family)
into a `CsvInfo` store and rewrites variable references `BASE[:SCOPE]:INDEX`
found in text by the regular expression
`([^(){\[%: \n]+)(:[^ (){\n:]+)?:(\d+)` (the `VAR_REGEX` static), replacing
the numeric index with the display name looked up in the store
(`impl Replacer for &CsvInfo::replace_append`).

Modelling conventions:
  * text is `List Char`; inside the matcher the regex `\d` class is
    modelled by the ASCII `Char.isDigit`, an under-approximation of the
    regex crate's Unicode `\p{Nd}`; the full class is embedded separately
    as `isNd`, and every theorem whose conclusion needs the ABSENCE of a
    digit match states its hypotheses with `isNd`, so such a theorem only
    covers inputs on which this matcher and the program agree;
  * `HashMap` is modelled observationally by an association list whose
    `insert` prepends and whose lookup takes the first hit, so the latest
    insertion wins, exactly as for `HashMap::insert`;
  * a Rust function that can panic is embedded with an `Option` (or a
    dedicated constructor) whose `none`-like value marks the panic;
  * a table file is given as a `bom` flag (the result of `check_bom`,
    which compares the first three bytes against `EF BB BF`) together with
    its list of lines (what successive `read_line` calls produce, without
    the line terminator); file-system and I/O errors are outside the model.
-/

/-- Character class of capture group 1 of `VAR_REGEX`:
`[^(){\[%: \n]` (everything except `(`, `)`, `{`, `[`, `%`, `:`, space and
newline). -/
def isVarChar (c : Char) : Bool :=
  !(c == '(' || c == ')' || c == '\x7b' || c == '[' || c == '%' || c == ':' ||
    c == ' ' || c == '\n')

/-- Character class of the optional capture group 2 of `VAR_REGEX`:
`[^ (){\n:]` (everything except space, `(`, `)`, `{`, newline and `:`). -/
def isScopeChar (c : Char) : Bool :=
  !(c == ' ' || c == '(' || c == ')' || c == '\x7b' || c == '\n' || c == ':')

/-- The code-point ranges of the Unicode decimal-digit class `\p{Nd}`
(Unicode 14.0.0, plus the two decimal-digit blocks added in Unicode 15:
Kawi and Nag Mundari). -/
def ndRanges : List (Nat × Nat) :=
  [(0x30, 0x39), (0x660, 0x669), (0x6F0, 0x6F9), (0x7C0, 0x7C9),
   (0x966, 0x96F), (0x9E6, 0x9EF), (0xA66, 0xA6F), (0xAE6, 0xAEF),
   (0xB66, 0xB6F), (0xBE6, 0xBEF), (0xC66, 0xC6F), (0xCE6, 0xCEF),
   (0xD66, 0xD6F), (0xDE6, 0xDEF), (0xE50, 0xE59), (0xED0, 0xED9),
   (0xF20, 0xF29), (0x1040, 0x1049), (0x1090, 0x1099), (0x17E0, 0x17E9),
   (0x1810, 0x1819), (0x1946, 0x194F), (0x19D0, 0x19D9), (0x1A80, 0x1A89),
   (0x1A90, 0x1A99), (0x1B50, 0x1B59), (0x1BB0, 0x1BB9), (0x1C40, 0x1C49),
   (0x1C50, 0x1C59), (0xA620, 0xA629), (0xA8D0, 0xA8D9), (0xA900, 0xA909),
   (0xA9D0, 0xA9D9), (0xA9F0, 0xA9F9), (0xAA50, 0xAA59), (0xABF0, 0xABF9),
   (0xFF10, 0xFF19), (0x104A0, 0x104A9), (0x10D30, 0x10D39), (0x11066, 0x1106F),
   (0x110F0, 0x110F9), (0x11136, 0x1113F), (0x111D0, 0x111D9), (0x112F0, 0x112F9),
   (0x11450, 0x11459), (0x114D0, 0x114D9), (0x11650, 0x11659), (0x116C0, 0x116C9),
   (0x11730, 0x11739), (0x118E0, 0x118E9), (0x11950, 0x11959), (0x11C50, 0x11C59),
   (0x11D50, 0x11D59), (0x11DA0, 0x11DA9), (0x11F50, 0x11F59), (0x16A60, 0x16A69),
   (0x16AC0, 0x16AC9), (0x16B50, 0x16B59), (0x1D7CE, 0x1D7FF), (0x1E140, 0x1E149),
   (0x1E2F0, 0x1E2F9), (0x1E4F0, 0x1E4F9), (0x1E950, 0x1E959), (0x1FBF0, 0x1FBF9)]

/-- The Unicode decimal-digit class `\p{Nd}`: the regex crate's `\d`.
`ndRanges` is a superset of the class used by any regex crate version this
tool can pin, so a hypothesis demanding `isNd c = false` excludes every
character the program's `\d` could match. -/
def isNd (c : Char) : Bool :=
  ndRanges.any (fun r => decide (r.1 ≤ c.toNat ∧ c.toNat ≤ r.2))

/-- `is_chara_csv` from `src/lib.rs` (lines 43-50): the fixed per-character
family list. -/
def is_chara_csv (name : String) : Bool :=
  name == "ABL" || name == "BASE" || name == "CFLAG" || name == "EX" ||
  name == "EXP" || name == "JUEL" || name == "MARK" || name == "SOURCE" ||
  name == "STAIN" || name == "TALENT" || name == "CSTR" || name == "EQUIP" ||
  name == "PALAM" || name == "UP" || name == "DOWN" || name == "UPBASE" ||
  name == "DOWNBASE" || name == "NOWEX" || name == "TCVAR"

/-- `is_global_csv` from `src/lib.rs` (lines 52-57): the fixed global family
list. -/
def is_global_csv (name : String) : Bool :=
  name == "STR" || name == "FLAG" || name == "CFLAG" || name == "TFLAG" ||
  name == "TEQUIP"

/-- The command-line options that influence the core (`Opt`, lines 19-32);
the two path fields feed only the file-system wrappers and are omitted. -/
structure Opt where
  includes : List String
  excludes : List String
  normalize : Bool
  explict_target : Bool
deriving DecidableEq

/-- `is_need_csv` from `src/lib.rs` (lines 59-69). -/
def is_need_csv (name : String) (opt : Opt) : Bool :=
  if opt.includes.any (fun n => n == name) then true
  else if opt.excludes.any (fun n => n == name) then false
  else is_chara_csv name || is_global_csv name

/-- `unicode_hfwidth::to_halfwidth`, modelled on the fullwidth ASCII block
(U+FF01..U+FF5E maps onto U+0021..U+007E); the crate's remaining mappings
(halfwidth katakana and the like) are irrelevant to every claim and are
collapsed to `none`. -/
def to_halfwidth (c : Char) : Option Char :=
  if 0xFF01 ≤ c.toNat ∧ c.toNat ≤ 0xFF5E then some (Char.ofNat (c.toNat - 0xFEE0))
  else none

/-- `normalize_name` from `src/lib.rs` (lines 92-108): halfwidth conversion,
dropping spaces and `)`, mapping `(` to a double underscore. -/
def normalize_name : List Char → List Char
  | [] => []
  | c :: r =>
    (match to_halfwidth c with
     | some c2 => [c2]
     | none =>
       if c = ' ' ∨ c = ')' then []
       else if c = '(' then ['_', '_']
       else [c]) ++ normalize_name r

/-- `str::trim` on a line, modelled with `Char.isWhitespace` (Rust trims the
Unicode white-space class; the difference is irrelevant to the claims). -/
def trimChars (l : List Char) : List Char :=
  ((l.dropWhile Char.isWhitespace).reverse.dropWhile Char.isWhitespace).reverse

/-- `str::parse::<u32>()` on the index field: an optional leading `+`, then a
non-empty run of decimal digits whose value must fit in 32 bits; anything
else is a parse error (`none`). -/
def parseU32 (s : List Char) : Option Nat :=
  let ds := match s with
    | '+' :: r => r
    | _ => s
  if ds ≠ [] ∧ ds.all Char.isDigit then
    let n := ds.foldl (fun a c => a * 10 + (c.toNat - '0'.toNat)) 0
    if n < 4294967296 then some n else none
  else none

/-- Outcome of processing one line of a table file inside the `loop` of
`parse_csv` (lines 122-159). -/
inductive LineOut where
  /-- The trimmed, comment-stripped line is empty: `continue`. -/
  | skip : LineOut
  /-- A well-formed row: insert `(n, name)` into the map. -/
  | entry (n : Nat) (name : String) : LineOut
  /-- `num.parse()?` failed: the error propagates out of `parse_csv`. -/
  | errParse : LineOut
  /-- `line.find(',').unwrap()` found no comma: the thread panics. -/
  | noComma : LineOut
deriving DecidableEq, Repr

/-- One iteration of the line loop of `parse_csv` (lines 122-159): trim,
cut at the first `;`, skip empty lines, split at the first comma
(`unwrap` panics when there is none), drop everything from a second comma
on, parse the index, optionally normalize the name. -/
def lineStep (normalize : Bool) (raw : List Char) : LineOut :=
  let line := (trimChars raw).takeWhile (fun c => c != ';')
  if line = [] then .skip
  else
    match line.dropWhile (fun c => c != ',') with
    | [] => .noComma
    | _ :: rest =>
      let num := line.takeWhile (fun c => c != ',')
      let name := rest.takeWhile (fun c => c != ',')
      match parseU32 num with
      | none => .errParse
      | some n => .entry n (String.mk (if normalize then normalize_name name else name))

/-- Result of `parse_csv` on one file: the returned map, a propagated
`Err`, or a panic. -/
inductive LoadResult where
  | ok (tbl : List (Nat × String)) : LoadResult
  | err : LoadResult
  | panicked : LoadResult
deriving DecidableEq, Repr

/-- Lookup in a family table, observationally `HashMap<u32, String>::get`. -/
def lookupN (n : Nat) (tbl : List (Nat × String)) : Option String :=
  (tbl.find? (fun e => e.1 == n)).map (·.2)

/-- The line loop of `parse_csv`, threading the accumulated map; insertion
prepends, so with `lookupN` the latest insertion for a key wins, as for
`HashMap::insert`. -/
def parseLines (normalize : Bool) : List (List Char) → List (Nat × String) → LoadResult
  | [], acc => .ok acc
  | l :: ls, acc =>
    match lineStep normalize l with
    | .skip => parseLines normalize ls acc
    | .entry n nm => parseLines normalize ls ((n, nm) :: acc)
    | .errParse => .err
    | .noComma => .panicked

/-- A table file as `parse_csv` sees it: the `check_bom` outcome and the
lines delivered by `read_line`. -/
structure CsvFile where
  bom : Bool
  lines : List (List Char)
deriving DecidableEq

/-- `parse_csv` from `src/lib.rs` (lines 110-162): a file without the BOM is
skipped with a warning and yields `Ok` with an empty map; otherwise the
lines are folded. -/
def parse_csv (f : CsvFile) (normalize : Bool) : LoadResult :=
  if f.bom then parseLines normalize f.lines [] else .ok []

/-- The table store (`CsvInfo`, lines 164-167): family name to table, plus
the `explict_target` flag. -/
structure CsvInfo where
  dic : List (String × List (Nat × String))
  explict_target : Bool
deriving DecidableEq

/-- Lookup of a family in the store, observationally
`HashMap<String, HashMap<u32, String>>::get`. -/
def lookupFam (s : String) (dic : List (String × List (Nat × String))) :
    Option (List (Nat × String)) :=
  (dic.find? (fun e => e.1 == s)).map (·.2)

/-- `file_stem().to_uppercase()` on a candidate file, modelled per
character with `Char.toUpper` (family names are ASCII). -/
def upperName (s : String) : String :=
  String.mk (s.data.map Char.toUpper)

/-- The collection loop of `CsvInfo::new` (lines 175-186): per candidate
file, uppercase the stem, test `is_need_csv`, parse, and keep only `Ok`
results (`.ok()` turns an `Err` into a skipped family).  A panic in any
worker crashes the run, which the model reports as `none`. -/
def buildDic (files : List (String × CsvFile)) (opt : Opt) :
    Option (List (String × List (Nat × String))) :=
  match files with
  | [] => some []
  | (stem, f) :: rest =>
    let name := upperName stem
    if is_need_csv name opt then
      match parse_csv f opt.normalize with
      | .panicked => none
      | .err => buildDic rest opt
      | .ok tbl => (buildDic rest opt).map (fun d => (name, tbl) :: d)
    else buildDic rest opt

/-- `CsvInfo::new` (lines 169-193), given the discovered files and options. -/
def mkCsvInfo (files : List (String × CsvFile)) (opt : Opt) : Option CsvInfo :=
  (buildDic files opt).map (fun d => { dic := d, explict_target := opt.explict_target })

/-- One regex match of `VAR_REGEX`: capture group 1 (`var`), the optional
capture group 2 without its leading colon (`scope`), and capture group 3
(`idx`). -/
structure MatchCaps where
  var : List Char
  scope : Option (List Char)
  idx : List Char
deriving DecidableEq, Repr

/-- Capture group 0: the full matched text. -/
def matchText (caps : MatchCaps) : List Char :=
  caps.var ++ (match caps.scope with
    | some sc => ':' :: sc
    | none => []) ++ ':' :: caps.idx

/-- The suffix-stripping step of `replace_append` (lines 201-205): a base
name ending in `NAME` loses those four characters before the family lookup. -/
def stripName (var : List Char) : List Char :=
  if ['N', 'A', 'M', 'E'].isSuffixOf var then var.take (var.length - 4) else var

/-- The static alias table of `replace_append` (lines 206-211). -/
def aliasFamily (s : String) : String :=
  if s = "PALAM" ∨ s = "UP" ∨ s = "DOWN" then "JUEL"
  else if s = "NOWEX" then "EX"
  else if s = "UPBASE" ∨ s = "DOWNBASE" then "BASE"
  else s

/-- `replace_append` (lines 195-237) for one match.  On a family hit the
output is the base name, the explicit scope (or the synthesized `:TARGET`
when `explict_target` is set, there is no scope, and the literal base name
is a per-character family), a colon, and the display name (or the original
digits when the index has no entry); `idx.parse().unwrap()` panics (`none`)
when the digits overflow `u32`.  On a family miss the raw matched text is
emitted. -/
def replace_append (csv : CsvInfo) (caps : MatchCaps) : Option (List Char) :=
  match lookupFam (aliasFamily (String.mk (stripName caps.var))) csv.dic with
  | some tbl =>
    let scopePart : List Char :=
      match caps.scope with
      | some sc => ':' :: sc
      | none =>
        if csv.explict_target && is_chara_csv (String.mk caps.var) then
          [':', 'T', 'A', 'R', 'G', 'E', 'T']
        else []
    match parseU32 caps.idx with
    | none => none
    | some n =>
      some (caps.var ++ scopePart ++ ':' ::
        (match lookupN n tbl with
         | some v => v.data
         | none => caps.idx))
  | none => some (matchText caps)

/-- The greedy scoped alternative of `VAR_REGEX` after the first colon: a
maximal non-empty run of `isScopeChar`, a colon, then at least one digit.
`\d` is modelled by the ASCII `Char.isDigit` (see the module conventions:
theorems that rely on no digit being matched take `isNd`-hypotheses
instead, covering the crate's full `\p{Nd}`). -/
def tryScoped (v : List Char) (r2 : List Char) : Option (MatchCaps × List Char) :=
  match r2.takeWhile isScopeChar, r2.dropWhile isScopeChar with
  | s0 :: s1, ':' :: r3 =>
    match r3.takeWhile Char.isDigit, r3.dropWhile Char.isDigit with
    | d0 :: d1, rest => some (MatchCaps.mk v (some (s0 :: s1)) (d0 :: d1), rest)
    | [], _ => none
  | _, _ => none

/-- Leftmost-first matching of `VAR_REGEX` at the head of the text: a
maximal non-empty run of `isVarChar`, a colon, then preferably the greedy
optional group 2 (`tryScoped`), otherwise digits directly (`\d` as ASCII
`Char.isDigit`, under-approximating `\p{Nd}`; see the module
conventions).  Returns the captures and the text after the match. -/
def tryMatch (l : List Char) : Option (MatchCaps × List Char) :=
  match l.takeWhile isVarChar, l.dropWhile isVarChar with
  | v0 :: v1, ':' :: r2 =>
    match tryScoped (v0 :: v1) r2 with
    | some m => some m
    | none =>
      match r2.takeWhile Char.isDigit, r2.dropWhile Char.isDigit with
      | d0 :: d1, rest => some (MatchCaps.mk (v0 :: v1) none (d0 :: d1), rest)
      | [], _ => none
  | _, _ => none


/-- Elements of a `takeWhile` satisfy the predicate (restated for use with
explicit arguments). -/
theorem all_takeWhile (p : Char → Bool) (l : List Char) :
    ∀ c ∈ l.takeWhile p, p c = true := fun _ h => List.mem_takeWhile_imp h

/-- Full decomposition of a successful `tryScoped`. -/
theorem tryScoped_some {v r2 : List Char} {caps : MatchCaps} {rest : List Char}
    (h : tryScoped v r2 = some (caps, rest)) :
    ∃ sc, caps = MatchCaps.mk v (some sc) caps.idx ∧
      r2 = sc ++ ':' :: caps.idx ++ rest ∧ sc ≠ [] ∧
      (∀ c ∈ sc, isScopeChar c = true) ∧ caps.idx ≠ [] ∧
      (∀ c ∈ caps.idx, c.isDigit = true) := by
  unfold tryScoped at h
  split at h
  case h_2 => exact absurd h (by simp)
  case h_1 s0 s1 r3 hstake hsdrop =>
    have hr2 : r2 = (s0 :: s1) ++ ':' :: r3 := by
      conv_lhs => rw [← List.takeWhile_append_dropWhile (p := isScopeChar) (l := r2)]
      rw [hstake, hsdrop]
    split at h
    case h_2 => exact absurd h (by simp)
    case h_1 u1 u2 d0 d1 hdtake =>
      have hr3 : r3 = (d0 :: d1) ++ r3.dropWhile Char.isDigit := by
        conv_lhs => rw [← List.takeWhile_append_dropWhile (p := Char.isDigit) (l := r3)]
        rw [hdtake]
      simp only [Option.some.injEq, Prod.mk.injEq] at h
      obtain ⟨hc, hr⟩ := h
      subst hc
      rw [hr] at hr3
      refine ⟨s0 :: s1, rfl, ?_, by simp, ?_, by simp, ?_⟩
      · rw [hr2, hr3]; simp
      · intro c hc; exact all_takeWhile _ r2 c (hstake ▸ hc)
      · intro c hc; exact all_takeWhile _ r3 c (hdtake ▸ hc)

/-- Full decomposition of a successful `tryMatch`: the input splits into the
matched text and the remainder, and the three captures are non-empty runs of
their character classes. -/
theorem tryMatch_some {l : List Char} {caps : MatchCaps} {rest : List Char}
    (h : tryMatch l = some (caps, rest)) :
    l = matchText caps ++ rest ∧ caps.var ≠ [] ∧
      (∀ c ∈ caps.var, isVarChar c = true) ∧ caps.idx ≠ [] ∧
      (∀ c ∈ caps.idx, c.isDigit = true) ∧
      (∀ sc, caps.scope = some sc → sc ≠ [] ∧ ∀ c ∈ sc, isScopeChar c = true) := by
  unfold tryMatch at h
  split at h
  case h_2 => exact absurd h (by simp)
  case h_1 v0 v1 r2 hvtake hvdrop =>
    have hl : l = (v0 :: v1) ++ ':' :: r2 := by
      conv_lhs => rw [← List.takeWhile_append_dropWhile (p := isVarChar) (l := l)]
      rw [hvtake, hvdrop]
    have hvmem : ∀ c ∈ (v0 :: v1), isVarChar c = true := by
      intro c hc; exact all_takeWhile _ l c (hvtake ▸ hc)
    split at h
    case h_1 m hsc =>
      simp only [Option.some.injEq] at h
      subst h
      obtain ⟨sc, hcaps, hr2, hne, hmem, hidxne, hidxmem⟩ := tryScoped_some hsc
      refine ⟨?_, by rw [hcaps]; simp, by rw [hcaps]; exact hvmem, hidxne, hidxmem, ?_⟩
      · rw [hl, hr2, hcaps]
        simp [matchText]
      · intro sc2 hsc2
        rw [hcaps] at hsc2
        simp only [Option.some.injEq] at hsc2
        subst hsc2
        exact ⟨hne, hmem⟩
    case h_2 hsc =>
      split at h
      case h_2 => exact absurd h (by simp)
      case h_1 u1 u2 d0 d1 hdtake =>
        have hr2 : r2 = (d0 :: d1) ++ r2.dropWhile Char.isDigit := by
          conv_lhs => rw [← List.takeWhile_append_dropWhile (p := Char.isDigit) (l := r2)]
          rw [hdtake]
        simp only [Option.some.injEq, Prod.mk.injEq] at h
        obtain ⟨hc, hr⟩ := h
        subst hc
        subst hr
        refine ⟨?_, by simp, hvmem, by simp, ?_, by simp⟩
        · rw [hl]
          conv_lhs => rw [hr2]
          simp [matchText]
        · intro c hc; exact all_takeWhile _ r2 c (hdtake ▸ hc)

/-- The remainder of a successful match is strictly shorter than the input. -/
theorem tryMatch_rest_lt {l : List Char} {caps : MatchCaps} {rest : List Char}
    (h : tryMatch l = some (caps, rest)) : rest.length < l.length := by
  obtain ⟨hdec, hv, -, -, -, -⟩ := tryMatch_some h
  have hpos : (matchText caps).length > 0 := by
    simp only [matchText]
    cases hcv : caps.var with
    | nil => exact absurd hcv hv
    | cons a b => simp
  calc rest.length < (matchText caps).length + rest.length := by omega
    _ = l.length := by rw [hdec, List.length_append]

/-- The whole-text substitution `VAR_REGEX.replace_all(text, csv)` of
`convert_erb` (line 254): scan left to right, non-overlapping; each match is
rewritten by `replace_append` and the scan resumes after the match; a panic
in `replace_append` aborts the run (`none`). -/
def findRewrite (csv : CsvInfo) (l : List Char) : Option (List Char) :=
  match htm : tryMatch l with
  | some (caps, rest) => do
    let r ← replace_append csv caps
    let t ← findRewrite csv rest
    pure (r ++ t)
  | none =>
    match l with
    | [] => some []
    | c :: t => (findRewrite csv t).map (fun u => c :: u)
termination_by l.length
decreasing_by
  · exact tryMatch_rest_lt htm
  · simp

/-- Unfolding of `findRewrite` at a successful match. -/
theorem findRewrite_pos {csv : CsvInfo} {l : List Char} {caps : MatchCaps}
    {rest : List Char} (h : tryMatch l = some (caps, rest)) :
    findRewrite csv l = (do
      let r ← replace_append csv caps
      let t ← findRewrite csv rest
      pure (r ++ t)) := by
  rw [findRewrite]
  split
  case h_1 caps2 rest2 htm =>
    rw [h] at htm
    simp only [Option.some.injEq, Prod.mk.injEq] at htm
    rw [htm.1, htm.2]
  case h_2 htm =>
    rw [h] at htm
    exact absurd htm (by simp)

/-- `findRewrite` on the empty text. -/
theorem findRewrite_nil (csv : CsvInfo) : findRewrite csv [] = some [] := by
  rw [findRewrite]
  split
  case h_1 caps rest htm => simp [tryMatch] at htm
  case h_2 htm => rfl

/-- Unfolding of `findRewrite` when no match starts at the head: the head
character is copied. -/
theorem findRewrite_neg {csv : CsvInfo} {c : Char} {t : List Char}
    (h : tryMatch (c :: t) = none) :
    findRewrite csv (c :: t) = (findRewrite csv t).map (fun u => c :: u) := by
  rw [findRewrite]
  split
  case h_1 caps2 rest2 htm =>
    rw [h] at htm
    exact absurd htm (by simp)
  case h_2 htm => rfl

/-- Fuel-driven variant of `findRewrite`, used to evaluate the function on
closed inputs by kernel reduction. -/
def findRewriteN (csv : CsvInfo) : Nat → List Char → Option (List Char)
  | 0, _ => none
  | fuel + 1, l =>
    match tryMatch l with
    | some (caps, rest) => do
      let r ← replace_append csv caps
      let t ← findRewriteN csv fuel rest
      pure (r ++ t)
    | none =>
      match l with
      | [] => some []
      | c :: t => (findRewriteN csv fuel t).map (fun u => c :: u)

/-- With enough fuel the fuel-driven evaluator agrees with `findRewrite`. -/
theorem findRewriteN_eq (csv : CsvInfo) :
    ∀ (fuel : Nat) (l : List Char), l.length < fuel →
      findRewriteN csv fuel l = findRewrite csv l := by
  intro fuel
  induction fuel with
  | zero => intro l h; omega
  | succ n ih =>
    intro l h
    cases htm : tryMatch l with
    | some m =>
      obtain ⟨caps, rest⟩ := m
      have hlt := tryMatch_rest_lt htm
      rw [findRewrite_pos htm]
      simp only [findRewriteN, htm]
      rw [ih rest (by omega)]
    | none =>
      cases l with
      | nil => simp [findRewriteN, htm, findRewrite_nil]
      | cons c t =>
        rw [findRewrite_neg htm]
        simp only [findRewriteN, htm]
        rw [ih t (by simp at h ⊢; omega)]

/-- `takeWhile` and `dropWhile` on an append whose first part satisfies the
predicate and whose second part starts with a failing character. -/
theorem takeWhile_app (p : Char → Bool) (a b : List Char)
    (ha : ∀ c ∈ a, p c = true) (hb : ∀ x xs, b = x :: xs → p x = false) :
    (a ++ b).takeWhile p = a ∧ (a ++ b).dropWhile p = b := by
  induction a with
  | nil =>
    cases hbc : b with
    | nil => simp
    | cons x xs => simp [List.takeWhile_cons, List.dropWhile_cons, hb x xs hbc]
  | cons c a' ih =>
    have hc : p c = true := ha c (by simp)
    have ih2 := ih (fun d hd => ha d (by simp [hd]))
    simp [List.takeWhile_cons, List.dropWhile_cons, hc, ih2.1, ih2.2]

/-- A digit differs from any non-digit character. -/
theorem ne_of_digit {c d : Char} (h : c.isDigit = true) (hd : d.isDigit = false) :
    (c == d) = false := by
  cases hcd : c == d
  · rfl
  · have he : c = d := eq_of_beq hcd
    subst he
    exact absurd h (by simp [hd])

/-- Digits satisfy the scope character class. -/
theorem digit_isScopeChar {c : Char} (h : c.isDigit = true) : isScopeChar c = true := by
  unfold isScopeChar
  rw [ne_of_digit h (d := ' ') (by decide), ne_of_digit h (d := '(') (by decide),
    ne_of_digit h (d := ')') (by decide), ne_of_digit h (d := '\x7b') (by decide),
    ne_of_digit h (d := '\n') (by decide), ne_of_digit h (d := ':') (by decide)]
  rfl

/-- Digits satisfy the base-name character class. -/
theorem digit_isVarChar {c : Char} (h : c.isDigit = true) : isVarChar c = true := by
  unfold isVarChar
  rw [ne_of_digit h (d := '(') (by decide), ne_of_digit h (d := ')') (by decide),
    ne_of_digit h (d := '\x7b') (by decide), ne_of_digit h (d := '[') (by decide),
    ne_of_digit h (d := '%') (by decide), ne_of_digit h (d := ':') (by decide),
    ne_of_digit h (d := ' ') (by decide), ne_of_digit h (d := '\n') (by decide)]
  rfl

/-- ASCII digits lie in the Unicode decimal-digit class. -/
theorem isDigit_isNd {c : Char} (h : c.isDigit = true) : isNd c = true := by
  simp only [Char.isDigit, Bool.and_eq_true, decide_eq_true_eq] at h
  simp only [isNd, ndRanges, List.any_cons, Bool.or_eq_true, decide_eq_true_eq]
  exact Or.inl ⟨h.1, h.2⟩

/-- A character outside the Unicode decimal-digit class is no ASCII digit. -/
theorem not_isNd_isDigit {c : Char} (h : isNd c = false) : c.isDigit = false := by
  cases hd : c.isDigit
  · rfl
  · rw [isDigit_isNd hd] at h
    exact absurd h (by simp)

/-- The class is strictly wider than ASCII: fullwidth TWO (U+FF12) is a
`\d` match for the program but not an ASCII digit. -/
theorem isNd_wider :
    isNd (Char.ofNat 0xFF12) = true ∧ (Char.ofNat 0xFF12).isDigit = false := by
  decide

/-- Every element surviving a `dropWhile` was in the original list. -/
theorem mem_dropWhile (p : Char → Bool) (l : List Char) :
    ∀ c ∈ l.dropWhile p, c ∈ l := by
  induction l with
  | nil => simp
  | cons a t ih =>
    intro c hc
    rw [List.dropWhile_cons] at hc
    by_cases hp : p a = true
    · simp only [hp, if_true] at hc
      exact List.mem_cons_of_mem a (ih c hc)
    · simp only [Bool.not_eq_true] at hp
      simp only [hp] at hc
      simpa using hc

/-- `tryScoped` fails when the text after the first colon contains no
further colon. -/
theorem tryScoped_none_no_colon {v r2 : List Char} (h : ':' ∉ r2) :
    tryScoped v r2 = none := by
  unfold tryScoped
  cases htw : r2.takeWhile isScopeChar with
  | nil =>
    cases hdw : r2.dropWhile isScopeChar <;> rfl
  | cons s0 s1 =>
    cases hdw : r2.dropWhile isScopeChar with
    | nil => rfl
    | cons x r3 =>
      have hx : x ∈ r2 := mem_dropWhile isScopeChar r2 x (by rw [hdw]; simp)
      have hxne : ¬(x = ':') := fun he => h (he ▸ hx)
      split
      case h_1 s2 s3 r4 heq =>
        simp only [List.cons.injEq] at heq
        exact absurd heq.1 hxne
      case h_2 => rfl

/-- `takeWhile`/`dropWhile` on a list all of whose elements satisfy the
predicate. -/
theorem takeWhile_self (p : Char → Bool) (l : List Char) (h : ∀ c ∈ l, p c = true) :
    l.takeWhile p = l ∧ l.dropWhile p = [] := by
  have := takeWhile_app p l [] h (by intro x xs he; exact absurd he (by simp))
  simpa using this

/-- `tryScoped` on a well-formed `SCOPE:DIGITS` remainder. -/
theorem tryScoped_token {v sc ds : List Char} (hsne : sc ≠ [])
    (hsc : ∀ c ∈ sc, isScopeChar c = true) (hdne : ds ≠ [])
    (hd : ∀ c ∈ ds, c.isDigit = true) :
    tryScoped v (sc ++ ':' :: ds) = some (MatchCaps.mk v (some sc) ds, []) := by
  obtain ⟨s0, s1, rfl⟩ := List.exists_cons_of_ne_nil hsne
  obtain ⟨d0, d1, rfl⟩ := List.exists_cons_of_ne_nil hdne
  have hb : ∀ x xs, (':' :: (d0 :: d1) : List Char) = x :: xs → isScopeChar x = false := by
    intro x xs he
    simp only [List.cons.injEq] at he
    rw [← he.1]
    decide
  have htw := (takeWhile_app isScopeChar (s0 :: s1) (':' :: (d0 :: d1)) hsc hb).1
  have hdw := (takeWhile_app isScopeChar (s0 :: s1) (':' :: (d0 :: d1)) hsc hb).2
  have htd := (takeWhile_self Char.isDigit (d0 :: d1) hd).1
  have hdd := (takeWhile_self Char.isDigit (d0 :: d1) hd).2
  unfold tryScoped
  simp only [htw, hdw, htd, hdd]

/-- `tryMatch` on a whole-text scoped token `VAR:SCOPE:DIGITS`. -/
theorem tryMatch_token_scope {var sc ds : List Char} (hvne : var ≠ [])
    (hv : ∀ c ∈ var, isVarChar c = true) (hsne : sc ≠ [])
    (hsc : ∀ c ∈ sc, isScopeChar c = true) (hdne : ds ≠ [])
    (hd : ∀ c ∈ ds, c.isDigit = true) :
    tryMatch (var ++ ':' :: (sc ++ ':' :: ds)) =
      some (MatchCaps.mk var (some sc) ds, []) := by
  obtain ⟨v0, v1, rfl⟩ := List.exists_cons_of_ne_nil hvne
  have hb : ∀ x xs, (':' :: (sc ++ ':' :: ds) : List Char) = x :: xs →
      isVarChar x = false := by
    intro x xs he
    simp only [List.cons.injEq] at he
    rw [← he.1]
    decide
  have htw := (takeWhile_app isVarChar (v0 :: v1) (':' :: (sc ++ ':' :: ds)) hv hb).1
  have hdw := (takeWhile_app isVarChar (v0 :: v1) (':' :: (sc ++ ':' :: ds)) hv hb).2
  unfold tryMatch
  simp only [htw, hdw, tryScoped_token hsne hsc hdne hd]

/-- `tryMatch` on a whole-text plain token `VAR:DIGITS`. -/
theorem tryMatch_token_plain {var ds : List Char} (hvne : var ≠ [])
    (hv : ∀ c ∈ var, isVarChar c = true) (hdne : ds ≠ [])
    (hd : ∀ c ∈ ds, c.isDigit = true) :
    tryMatch (var ++ ':' :: ds) = some (MatchCaps.mk var none ds, []) := by
  obtain ⟨v0, v1, rfl⟩ := List.exists_cons_of_ne_nil hvne
  obtain ⟨d0, d1, rfl⟩ := List.exists_cons_of_ne_nil hdne
  have hb : ∀ x xs, (':' :: (d0 :: d1) : List Char) = x :: xs → isVarChar x = false := by
    intro x xs he
    simp only [List.cons.injEq] at he
    rw [← he.1]
    decide
  have htw := (takeWhile_app isVarChar (v0 :: v1) (':' :: (d0 :: d1)) hv hb).1
  have hdw := (takeWhile_app isVarChar (v0 :: v1) (':' :: (d0 :: d1)) hv hb).2
  have hscoped : tryScoped (v0 :: v1) (d0 :: d1) = none := by
    unfold tryScoped
    have hts := takeWhile_self isScopeChar (d0 :: d1)
      (fun c hc => digit_isScopeChar (hd c hc))
    simp only [hts.1, hts.2]
  have htd := (takeWhile_self Char.isDigit (d0 :: d1) hd).1
  have hdd := (takeWhile_self Char.isDigit (d0 :: d1) hd).2
  unfold tryMatch
  simp only [htw, hdw, hscoped, htd, hdd]

/-- A successful match always contains a colon. -/
theorem tryMatch_none_of_no_colon {l : List Char} (h : ':' ∉ l) :
    tryMatch l = none := by
  cases htm : tryMatch l with
  | none => rfl
  | some m =>
    obtain ⟨caps, rest⟩ := m
    obtain ⟨hdec, -, -, -, -, -⟩ := tryMatch_some htm
    exact absurd (by
      rw [hdec]
      simp only [matchText]
      cases caps.scope <;> simp) h

/-- `findRewrite` copies colon-free text verbatim. -/
theorem findRewrite_no_colon (csv : CsvInfo) (l : List Char) (h : ':' ∉ l) :
    findRewrite csv l = some l := by
  induction l with
  | nil => exact findRewrite_nil csv
  | cons c t ih =>
    have hc : ':' ∉ (c :: t) := h
    rw [findRewrite_neg (tryMatch_none_of_no_colon hc)]
    rw [ih (fun hm => h (List.mem_cons_of_mem c hm))]
    rfl

/-- No match starts on `VAR:NAME` when the name holds no colon and does not
start with a digit.  `var` may be empty (matching fails on the leading
colon then). -/
theorem tryMatch_none_sep {var nm : List Char}
    (hv : ∀ c ∈ var, isVarChar c = true) (hnc : ':' ∉ nm)
    (hnd : ∀ x xs, nm = x :: xs → x.isDigit = false) :
    tryMatch (var ++ ':' :: nm) = none := by
  cases hvar : var with
  | nil =>
    unfold tryMatch
    have h1 : isVarChar ':' = false := by decide
    simp [List.takeWhile_cons, List.dropWhile_cons, h1]
  | cons v0 v1 =>
    subst hvar
    have hb : ∀ x xs, (':' :: nm : List Char) = x :: xs → isVarChar x = false := by
      intro x xs he
      simp only [List.cons.injEq] at he
      rw [← he.1]
      decide
    have htw := (takeWhile_app isVarChar (v0 :: v1) (':' :: nm) hv hb).1
    have hdw := (takeWhile_app isVarChar (v0 :: v1) (':' :: nm) hv hb).2
    have hscoped := tryScoped_none_no_colon (v := v0 :: v1) hnc
    have htd : nm.takeWhile Char.isDigit = [] := by
      cases hnm : nm with
      | nil => rfl
      | cons x xs => simp [List.takeWhile_cons, hnd x xs hnm]
    unfold tryMatch
    simp only [htw, hdw, hscoped, htd]

/-- `findRewrite` copies `VAR:NAME` verbatim when the name holds no colon
and no digit. -/
theorem findRewrite_sep (csv : CsvInfo) (var nm : List Char)
    (hv : ∀ c ∈ var, isVarChar c = true) (hnc : ':' ∉ nm)
    (hnd : ∀ c ∈ nm, c.isDigit = false) :
    findRewrite csv (var ++ ':' :: nm) = some (var ++ ':' :: nm) := by
  induction var with
  | nil =>
    have htm : tryMatch ((':' :: nm : List Char)) = none :=
      @tryMatch_none_sep [] nm (by simp) hnc
        (fun x xs he => hnd x (by rw [he]; simp))
    rw [List.nil_append, findRewrite_neg htm, findRewrite_no_colon csv nm hnc]
    rfl
  | cons v0 v1 ih =>
    have htm : tryMatch ((v0 :: v1) ++ ':' :: nm) = none :=
      tryMatch_none_sep hv hnc (fun x xs he => hnd x (by rw [he]; simp))
    rw [List.cons_append, findRewrite_neg (by rw [← List.cons_append]; exact htm)]
    rw [ih (fun c hc => hv c (List.mem_cons_of_mem v0 hc))]
    rfl

/-- No match starts on `VAR:SCOPE:NAME` when the scope is a non-empty run of
scope characters not starting with a digit and the name holds no colon and
no digit.  `var` may be empty or a run of base-name characters. -/
theorem tryMatch_none_sep2 {var sc nm : List Char}
    (hv : ∀ c ∈ var, isVarChar c = true) (hsne : sc ≠ [])
    (hsc : ∀ c ∈ sc, isScopeChar c = true)
    (hsd : ∀ x xs, sc = x :: xs → x.isDigit = false)
    (hnc : ':' ∉ nm) (hnd : ∀ c ∈ nm, c.isDigit = false) :
    tryMatch (var ++ ':' :: (sc ++ ':' :: nm)) = none := by
  cases hvar : var with
  | nil =>
    unfold tryMatch
    have h1 : isVarChar ':' = false := by decide
    simp [List.takeWhile_cons, List.dropWhile_cons, h1]
  | cons v0 v1 =>
    subst hvar
    have hb : ∀ x xs, (':' :: (sc ++ ':' :: nm) : List Char) = x :: xs →
        isVarChar x = false := by
      intro x xs he
      simp only [List.cons.injEq] at he
      rw [← he.1]
      decide
    have htw := (takeWhile_app isVarChar (v0 :: v1) (':' :: (sc ++ ':' :: nm)) hv hb).1
    have hdw := (takeWhile_app isVarChar (v0 :: v1) (':' :: (sc ++ ':' :: nm)) hv hb).2
    have hsb : ∀ x xs, (':' :: nm : List Char) = x :: xs → isScopeChar x = false := by
      intro x xs he
      simp only [List.cons.injEq] at he
      rw [← he.1]
      decide
    have hstw := (takeWhile_app isScopeChar sc (':' :: nm) hsc hsb).1
    have hsdw := (takeWhile_app isScopeChar sc (':' :: nm) hsc hsb).2
    obtain ⟨s0, s1, rfl⟩ := List.exists_cons_of_ne_nil hsne
    have hscoped : tryScoped (v0 :: v1) ((s0 :: s1) ++ ':' :: nm) = none := by
      unfold tryScoped
      have hntd : nm.takeWhile Char.isDigit = [] := by
        cases hnm : nm with
        | nil => rfl
        | cons x xs => simp [List.takeWhile_cons, hnd x (by rw [hnm]; simp)]
      simp only [hstw, hsdw, hntd]
    have htd : ((s0 :: s1) ++ ':' :: nm).takeWhile Char.isDigit = [] := by
      simp [List.takeWhile_cons, hsd s0 s1 rfl]
    unfold tryMatch
    simp only [htw, hdw, hscoped, htd]

/-- `findRewrite` copies `VAR:SCOPE:NAME` verbatim under the conditions of
`tryMatch_none_sep2`, with the scope additionally a run of base-name
characters. -/
theorem findRewrite_sep2 (csv : CsvInfo) (var sc nm : List Char)
    (hv : ∀ c ∈ var, isVarChar c = true) (hsne : sc ≠ [])
    (hsc : ∀ c ∈ sc, isScopeChar c = true)
    (hsv : ∀ c ∈ sc, isVarChar c = true)
    (hsd : ∀ x xs, sc = x :: xs → x.isDigit = false)
    (hnc : ':' ∉ nm) (hnd : ∀ c ∈ nm, c.isDigit = false) :
    findRewrite csv (var ++ ':' :: (sc ++ ':' :: nm)) =
      some (var ++ ':' :: (sc ++ ':' :: nm)) := by
  induction var with
  | nil =>
    have htm : tryMatch ((':' :: (sc ++ ':' :: nm) : List Char)) = none :=
      @tryMatch_none_sep2 [] sc nm (by simp) hsne hsc hsd hnc hnd
    rw [List.nil_append, findRewrite_neg htm,
      findRewrite_sep csv sc nm hsv hnc hnd]
    rfl
  | cons v0 v1 ih =>
    have htm : tryMatch ((v0 :: v1) ++ ':' :: (sc ++ ':' :: nm)) = none :=
      tryMatch_none_sep2 hv hsne hsc hsd hnc hnd
    rw [List.cons_append, findRewrite_neg (by rw [← List.cons_append]; exact htm)]
    rw [ih (fun c hc => hv c (List.mem_cons_of_mem v0 hc))]
    rfl

/-- When the match consumes the whole text, `findRewrite` is exactly
`replace_append` on its captures. -/
theorem findRewrite_single {csv : CsvInfo} {l : List Char} {caps : MatchCaps}
    (h : tryMatch l = some (caps, [])) :
    findRewrite csv l = replace_append csv caps := by
  rw [findRewrite_pos h]
  cases hra : replace_append csv caps with
  | none => simp
  | some r => simp [findRewrite_nil]

/-- C1 counterexample: with explicit-scope mode enabled, the store
`{ABL ↦ {0 ↦ "X"}}` rewrites the token `ABL:0` (family loaded, index
present) to `ABL:TARGET:X`, not to `ABL:X` as the claim requires. -/
theorem C1_counterexample :
    findRewrite { dic := [("ABL", [(0, "X")])], explict_target := true }
        "ABL:0".data = some "ABL:TARGET:X".data ∧
      some "ABL:TARGET:X".data ≠ some "ABL:X".data := by
  constructor
  · have h := findRewriteN_eq { dic := [("ABL", [(0, "X")])], explict_target := true }
      32 "ABL:0".data (by decide)
    rw [← h]
    decide
  · decide

/-- C1 (amended): for every store and every whole-text token
`FAMILY[:SCOPE]:INDEX` whose family is loaded and whose index has an entry,
the output is the base name, then the scope qualifier if one was written,
otherwise the synthesized `:TARGET` marker exactly when explicit-scope mode
is on and the literal base name is per-character, then a colon and the
resolved display name in place of the index digits. -/
theorem C1_amended (csv : CsvInfo) (var ds : List Char) (sc : Option (List Char))
    (tbl : List (Nat × String)) (n : Nat) (nm : String)
    (hvne : var ≠ []) (hv : ∀ c ∈ var, isVarChar c = true)
    (hdne : ds ≠ []) (hd : ∀ c ∈ ds, c.isDigit = true)
    (hscwf : ∀ s, sc = some s → s ≠ [] ∧ ∀ c ∈ s, isScopeChar c = true)
    (hfam : lookupFam (aliasFamily (String.mk (stripName var))) csv.dic = some tbl)
    (hn : parseU32 ds = some n) (hnm : lookupN n tbl = some nm) :
    findRewrite csv
        (var ++ (match sc with | some s => ':' :: s | none => []) ++ ':' :: ds) =
      some (var ++ (match sc with
        | some s => ':' :: s
        | none =>
          if csv.explict_target && is_chara_csv (String.mk var) then
            [':', 'T', 'A', 'R', 'G', 'E', 'T']
          else []) ++ ':' :: nm.data) := by
  cases sc with
  | none =>
    have htok : var ++ ([] : List Char) ++ ':' :: ds = var ++ ':' :: ds := by simp
    rw [htok, findRewrite_single (tryMatch_token_plain hvne hv hdne hd)]
    unfold replace_append
    simp only [hfam, hn, hnm]
  | some s =>
    obtain ⟨hsne, hsc⟩ := hscwf s rfl
    have htok : var ++ (':' :: s) ++ ':' :: ds = var ++ ':' :: (s ++ ':' :: ds) := by
      simp
    rw [htok, findRewrite_single (tryMatch_token_scope hvne hv hsne hsc hdne hd)]
    unfold replace_append
    simp only [hfam, hn, hnm]

/-- Witness for C1 (amended) at the store `{ABL ↦ {0 ↦ "C"}}` with
explicit-scope mode off, on the token `ABL:0`. -/
theorem C1_witness :
    lookupFam (aliasFamily (String.mk (stripName "ABL".data)))
        ([("ABL", [(0, "C")])] : List (String × List (Nat × String))) =
          some [(0, "C")] ∧
      findRewrite { dic := [("ABL", [(0, "C")])], explict_target := false }
          ("ABL".data ++
            (match (none : Option (List Char)) with
              | some s => ':' :: s
              | none => []) ++ ':' :: "0".data) =
        some ("ABL".data ++
          (match (none : Option (List Char)) with
            | some s => ':' :: s
            | none =>
              if ({ dic := [("ABL", [(0, "C")])], explict_target := false } :
                    CsvInfo).explict_target && is_chara_csv (String.mk "ABL".data) then
                [':', 'T', 'A', 'R', 'G', 'E', 'T']
              else []) ++ ':' :: ("C" : String).data) :=
  ⟨by decide,
    C1_amended { dic := [("ABL", [(0, "C")])], explict_target := false }
      "ABL".data "0".data none [(0, "C")] 0 "C" (by decide) (by decide)
      (by decide) (by decide) (fun s hs => nomatch hs) (by decide) (by decide)
      (by decide)⟩

/-- On a whole-text token whose family is not in the store, the rewrite
reproduces the token byte for byte (the `None` arm of `replace_append`
pushes the full matched text). -/
theorem findRewrite_fam_miss (csv : CsvInfo) (var ds : List Char)
    (sc : Option (List Char))
    (hvne : var ≠ []) (hv : ∀ c ∈ var, isVarChar c = true)
    (hdne : ds ≠ []) (hd : ∀ c ∈ ds, c.isDigit = true)
    (hscwf : ∀ s, sc = some s → s ≠ [] ∧ ∀ c ∈ s, isScopeChar c = true)
    (hfam : lookupFam (aliasFamily (String.mk (stripName var))) csv.dic = none) :
    findRewrite csv
        (var ++ (match sc with | some s => ':' :: s | none => []) ++ ':' :: ds) =
      some (var ++ (match sc with | some s => ':' :: s | none => []) ++ ':' :: ds) := by
  cases sc with
  | none =>
    have htok : var ++ ([] : List Char) ++ ':' :: ds = var ++ ':' :: ds := by simp
    rw [htok, findRewrite_single (tryMatch_token_plain hvne hv hdne hd)]
    unfold replace_append
    simp [hfam, matchText]
  | some s =>
    obtain ⟨hsne, hsc⟩ := hscwf s rfl
    have htok : var ++ (':' :: s) ++ ':' :: ds = var ++ ':' :: (s ++ ':' :: ds) := by
      simp
    rw [htok, findRewrite_single (tryMatch_token_scope hvne hv hsne hsc hdne hd)]
    unfold replace_append
    simp [hfam, matchText]

/-- C5 counterexample: with explicit-scope mode on and store
`{ABL ↦ {1 ↦ "X"}}`, the token `ABL:0` (family loaded, index absent) is
rewritten to `ABL:TARGET:0`, not to `ABL:0` as the claim's
`FAMILY:<original-index-digits>` shape requires. -/
theorem C5_counterexample :
    findRewrite { dic := [("ABL", [(1, "X")])], explict_target := true }
        "ABL:0".data = some "ABL:TARGET:0".data ∧
      some "ABL:TARGET:0".data ≠ some "ABL:0".data := by
  constructor
  · have h := findRewriteN_eq { dic := [("ABL", [(1, "X")])], explict_target := true }
      32 "ABL:0".data (by decide)
    rw [← h]
    decide
  · decide

/-- C5 (amended): a family miss reproduces the token byte for byte; a
loaded family whose table lacks the index reproduces the prefix and the
original digits, where the prefix carries the written scope qualifier if
any, else the synthesized `:TARGET` exactly when explicit-scope mode is on
and the literal base name is per-character.  Neither case panics. -/
theorem C5_amended (csv : CsvInfo) (var ds : List Char) (sc : Option (List Char))
    (hvne : var ≠ []) (hv : ∀ c ∈ var, isVarChar c = true)
    (hdne : ds ≠ []) (hd : ∀ c ∈ ds, c.isDigit = true)
    (hscwf : ∀ s, sc = some s → s ≠ [] ∧ ∀ c ∈ s, isScopeChar c = true) :
    (lookupFam (aliasFamily (String.mk (stripName var))) csv.dic = none →
      findRewrite csv
          (var ++ (match sc with | some s => ':' :: s | none => []) ++ ':' :: ds) =
        some (var ++ (match sc with | some s => ':' :: s | none => []) ++ ':' :: ds)) ∧
    (∀ tbl n, lookupFam (aliasFamily (String.mk (stripName var))) csv.dic = some tbl →
      parseU32 ds = some n → lookupN n tbl = none →
      findRewrite csv
          (var ++ (match sc with | some s => ':' :: s | none => []) ++ ':' :: ds) =
        some (var ++ (match sc with
          | some s => ':' :: s
          | none =>
            if csv.explict_target && is_chara_csv (String.mk var) then
              [':', 'T', 'A', 'R', 'G', 'E', 'T']
            else []) ++ ':' :: ds)) := by
  constructor
  · intro hfam
    exact findRewrite_fam_miss csv var ds sc hvne hv hdne hd hscwf hfam
  · intro tbl n hfam hn hmiss
    cases sc with
    | none =>
      have htok : var ++ ([] : List Char) ++ ':' :: ds = var ++ ':' :: ds := by simp
      rw [htok, findRewrite_single (tryMatch_token_plain hvne hv hdne hd)]
      unfold replace_append
      simp only [hfam, hn, hmiss]
    | some s =>
      obtain ⟨hsne, hsc⟩ := hscwf s rfl
      have htok : var ++ (':' :: s) ++ ':' :: ds = var ++ ':' :: (s ++ ':' :: ds) := by
        simp
      rw [htok, findRewrite_single (tryMatch_token_scope hvne hv hsne hsc hdne hd)]
      unfold replace_append
      simp only [hfam, hn, hmiss]
      simp

/-- Witness for C5 (amended): family miss on `XYZ:7` against a store
holding only `ABL`, and index miss on `ABL:7` against `{ABL ↦ {0 ↦ "C"}}`
with explicit-scope mode off. -/
theorem C5_witness :
    lookupFam (aliasFamily (String.mk (stripName "XYZ".data)))
        ([("ABL", [(0, "C")])] : List (String × List (Nat × String))) = none ∧
      findRewrite { dic := [("ABL", [(0, "C")])], explict_target := false }
          ("XYZ".data ++
            (match (none : Option (List Char)) with
              | some s => ':' :: s
              | none => []) ++ ':' :: "7".data) =
        some ("XYZ".data ++
          (match (none : Option (List Char)) with
            | some s => ':' :: s
            | none => []) ++ ':' :: "7".data) :=
  ⟨by decide,
    (C5_amended { dic := [("ABL", [(0, "C")])], explict_target := false }
      "XYZ".data "7".data none (by decide) (by decide) (by decide) (by decide)
      (fun s hs => nomatch hs)).1 (by decide)⟩

/-- C8 counterexample: with explicit-scope mode on and store
`{ABL ↦ {0 ↦ "X"}}`, the token `ABLNAME:0` resolves against the
per-character family `ABL` (suffix stripped), yet no `:TARGET` marker is
inserted: the mode test uses the literal base name `ABLNAME`, which is not
in the per-character list, so the output is `ABLNAME:X` and not the
`ABLNAME:TARGET:X` the claim requires. -/
theorem C8_counterexample :
    aliasFamily (String.mk (stripName "ABLNAME".data)) = "ABL" ∧
      is_chara_csv "ABL" = true ∧
      findRewrite { dic := [("ABL", [(0, "X")])], explict_target := true }
          "ABLNAME:0".data = some "ABLNAME:X".data ∧
      some "ABLNAME:X".data ≠ some "ABLNAME:TARGET:X".data := by
  refine ⟨by decide, by decide, ?_, by decide⟩
  have h := findRewriteN_eq { dic := [("ABL", [(0, "X")])], explict_target := true }
    32 "ABLNAME:0".data (by decide)
  rw [← h]
  decide

/-- C8 (amended): for a loaded family and a parseable index, a token
without a scope qualifier gets the `:TARGET` marker exactly when
explicit-scope mode is on and the LITERAL matched base name (before suffix
stripping and aliasing) is in the per-character list; a token with an
explicit scope qualifier never gets a synthesized marker. -/
theorem C8_amended (csv : CsvInfo) (var ds : List Char)
    (tbl : List (Nat × String)) (n : Nat)
    (hvne : var ≠ []) (hv : ∀ c ∈ var, isVarChar c = true)
    (hdne : ds ≠ []) (hd : ∀ c ∈ ds, c.isDigit = true)
    (hfam : lookupFam (aliasFamily (String.mk (stripName var))) csv.dic = some tbl)
    (hn : parseU32 ds = some n) :
    (findRewrite csv (var ++ ':' :: ds) =
      some (var ++
        (if csv.explict_target && is_chara_csv (String.mk var) then
          [':', 'T', 'A', 'R', 'G', 'E', 'T']
        else []) ++ ':' ::
        (match lookupN n tbl with
         | some v => v.data
         | none => ds))) ∧
    (∀ s, s ≠ [] → (∀ c ∈ s, isScopeChar c = true) →
      findRewrite csv (var ++ ':' :: (s ++ ':' :: ds)) =
        some (var ++ ':' :: s ++ ':' ::
          (match lookupN n tbl with
           | some v => v.data
           | none => ds))) := by
  constructor
  · rw [findRewrite_single (tryMatch_token_plain hvne hv hdne hd)]
    unfold replace_append
    simp only [hfam, hn]
  · intro s hsne hsc
    rw [findRewrite_single (tryMatch_token_scope hvne hv hsne hsc hdne hd)]
    unfold replace_append
    simp only [hfam, hn]

/-- Witness for C8 (amended): store `{ABL ↦ {0 ↦ "C"}}`, explicit-scope
mode on, token `ABL:0`: the literal base name `ABL` is per-character, so
`:TARGET` is synthesized. -/
theorem C8_witness :
    lookupFam (aliasFamily (String.mk (stripName "ABL".data)))
        ([("ABL", [(0, "C")])] : List (String × List (Nat × String))) =
          some [(0, "C")] ∧
      findRewrite { dic := [("ABL", [(0, "C")])], explict_target := true }
          ("ABL".data ++ ':' :: "0".data) =
        some ("ABL".data ++
          (if ({ dic := [("ABL", [(0, "C")])], explict_target := true } :
                CsvInfo).explict_target && is_chara_csv (String.mk "ABL".data) then
            [':', 'T', 'A', 'R', 'G', 'E', 'T']
          else []) ++ ':' ::
          (match lookupN 0 [(0, "C")] with
           | some v => v.data
           | none => "0".data)) :=
  ⟨by decide,
    (C8_amended { dic := [("ABL", [(0, "C")])], explict_target := true }
      "ABL".data "0".data [(0, "C")] 0 (by decide) (by decide) (by decide)
      (by decide) (by decide) (by decide)).1⟩

/-- C2 counterexample: with `{ABL ↦ {0 ↦ "X"}}` loaded, the token
`ABL:4294967296` (the digits overflow `u32`) makes `replace_append` panic
via `idx.parse().unwrap()`: the whole rewrite aborts (`none`) instead of
emitting the raw matched text unchanged. -/
theorem C2_counterexample :
    findRewrite { dic := [("ABL", [(0, "X")])], explict_target := false }
        "ABL:4294967296".data = none ∧
      (none : Option (List Char)) ≠ some "ABL:4294967296".data := by
  constructor
  · have h := findRewriteN_eq { dic := [("ABL", [(0, "X")])], explict_target := false }
      32 "ABL:4294967296".data (by decide)
    rw [← h]
    decide
  · decide

/-- C2 (amended): when the family of a matched token is not loaded, the raw
text is emitted unchanged without the index ever being parsed, so no panic;
but when the family is loaded and the index digits fail the `u32` parse
(overflow), `replace_append` panics (the rewrite yields `none`) instead of
treating the token as a miss. -/
theorem C2_amended (csv : CsvInfo) (var ds : List Char) (sc : Option (List Char))
    (hvne : var ≠ []) (hv : ∀ c ∈ var, isVarChar c = true)
    (hdne : ds ≠ []) (hd : ∀ c ∈ ds, c.isDigit = true)
    (hscwf : ∀ s, sc = some s → s ≠ [] ∧ ∀ c ∈ s, isScopeChar c = true) :
    (lookupFam (aliasFamily (String.mk (stripName var))) csv.dic = none →
      findRewrite csv
          (var ++ (match sc with | some s => ':' :: s | none => []) ++ ':' :: ds) =
        some (var ++ (match sc with | some s => ':' :: s | none => []) ++ ':' :: ds)) ∧
    (∀ tbl, lookupFam (aliasFamily (String.mk (stripName var))) csv.dic = some tbl →
      parseU32 ds = none →
      findRewrite csv
          (var ++ (match sc with | some s => ':' :: s | none => []) ++ ':' :: ds) =
        none) := by
  constructor
  · intro hfam
    exact findRewrite_fam_miss csv var ds sc hvne hv hdne hd hscwf hfam
  · intro tbl hfam hn
    cases sc with
    | none =>
      have htok : var ++ ([] : List Char) ++ ':' :: ds = var ++ ':' :: ds := by simp
      rw [htok, findRewrite_single (tryMatch_token_plain hvne hv hdne hd)]
      unfold replace_append
      simp only [hfam, hn]
    | some s =>
      obtain ⟨hsne, hsc⟩ := hscwf s rfl
      have htok : var ++ (':' :: s) ++ ':' :: ds = var ++ ':' :: (s ++ ':' :: ds) := by
        simp
      rw [htok, findRewrite_single (tryMatch_token_scope hvne hv hsne hsc hdne hd)]
      unfold replace_append
      simp only [hfam, hn]

/-- Witness for C2 (amended): family miss on `XYZ:4294967296` (raw text
kept, no panic) against a store holding only `ABL`. -/
theorem C2_witness :
    lookupFam (aliasFamily (String.mk (stripName "XYZ".data)))
        ([("ABL", [(0, "C")])] : List (String × List (Nat × String))) = none ∧
      findRewrite { dic := [("ABL", [(0, "C")])], explict_target := false }
          ("XYZ".data ++
            (match (none : Option (List Char)) with
              | some s => ':' :: s
              | none => []) ++ ':' :: "4294967296".data) =
        some ("XYZ".data ++
          (match (none : Option (List Char)) with
            | some s => ':' :: s
            | none => []) ++ ':' :: "4294967296".data) :=
  ⟨by decide,
    (C2_amended { dic := [("ABL", [(0, "C")])], explict_target := false }
      "XYZ".data "4294967296".data none (by decide) (by decide) (by decide)
      (by decide) (fun s hs => nomatch hs)).1 (by decide)⟩

/-- `replace_append` on a family miss emits the raw matched text. -/
theorem replace_append_miss {csv : CsvInfo} {caps : MatchCaps}
    (h : lookupFam (aliasFamily (String.mk (stripName caps.var))) csv.dic = none) :
    replace_append csv caps = some (matchText caps) := by
  unfold replace_append
  simp only [h]

/-- Text in which no match starts is copied verbatim in front of the rest. -/
theorem findRewrite_copy (csv : CsvInfo) (a l : List Char)
    (h : ∀ i < a.length, tryMatch ((a ++ l).drop i) = none) :
    findRewrite csv (a ++ l) = (findRewrite csv l).map (fun u => a ++ u) := by
  induction a with
  | nil =>
    cases hr : findRewrite csv l <;> simp [hr]
  | cons c a' ih =>
    have h0 : tryMatch (c :: (a' ++ l)) = none := by
      have := h 0 (by simp)
      simpa using this
    rw [List.cons_append, findRewrite_neg h0]
    rw [ih (fun i hi => by
      have := h (i + 1) (by simp; omega)
      simpa using this)]
    cases hr : findRewrite csv l <;> simp [hr]

/-- C4 counterexample: the lexical pattern DOES match `ARG:1` and `ARG:2`
inside the function-call text; with a store that loads a family named
`ARG` (here `{ARG ↦ {1 ↦ "ONE"}}`) the text is altered, so the claimed
"for every Table Store" invariance is false and the delimiter exclusion
set is not what protects the text. -/
theorem C4_counterexample :
    findRewrite { dic := [("ARG", [(1, "ONE")])], explict_target := false }
        "@FUNC(ARG, ARG:1, ARG:2)".data =
      some "@FUNC(ARG, ARG:ONE, ARG:2)".data ∧
    some "@FUNC(ARG, ARG:ONE, ARG:2)".data ≠ some "@FUNC(ARG, ARG:1, ARG:2)".data := by
  constructor
  · have h := findRewriteN_eq { dic := [("ARG", [(1, "ONE")])], explict_target := false }
      32 "@FUNC(ARG, ARG:1, ARG:2)".data (by decide)
    rw [← h]
    decide
  · decide

/-- C4 (amended): the tokens `ARG:1` and `ARG:2` inside
`@FUNC(ARG, ARG:1, ARG:2)` ARE matched as variable references, but for
every store in which no family named `ARG` is loaded they resolve as
family misses, so the text is copied to the output byte for byte. -/
theorem C4_amended (csv : CsvInfo) (h : lookupFam "ARG" csv.dic = none) :
    findRewrite csv "@FUNC(ARG, ARG:1, ARG:2)".data =
      some "@FUNC(ARG, ARG:1, ARG:2)".data := by
  have halias : aliasFamily (String.mk (stripName ['A', 'R', 'G'])) = "ARG" := by
    decide
  have hmiss1 : replace_append csv (MatchCaps.mk ['A', 'R', 'G'] none ['1']) =
      some (matchText (MatchCaps.mk ['A', 'R', 'G'] none ['1'])) :=
    replace_append_miss (by rw [halias, h])
  have hmiss2 : replace_append csv (MatchCaps.mk ['A', 'R', 'G'] none ['2']) =
      some (matchText (MatchCaps.mk ['A', 'R', 'G'] none ['2'])) :=
    replace_append_miss (by rw [halias, h])
  have h4 : findRewrite csv [')'] = some [')'] := by
    rw [findRewrite_neg (by decide), findRewrite_nil]
    rfl
  have h3 : findRewrite csv "ARG:2)".data = some "ARG:2)".data := by
    rw [findRewrite_pos
      (show tryMatch "ARG:2)".data =
        some (MatchCaps.mk ['A', 'R', 'G'] none ['2'], [')']) by decide)]
    rw [hmiss2]
    simp only [Option.bind_eq_bind, Option.some_bind, h4]
    rfl
  have h2 : findRewrite csv (", ".data ++ "ARG:2)".data) =
      some (", ".data ++ "ARG:2)".data) := by
    rw [findRewrite_copy csv ", ".data "ARG:2)".data (by decide), h3]
    rfl
  have h1 : findRewrite csv "ARG:1, ARG:2)".data = some "ARG:1, ARG:2)".data := by
    rw [findRewrite_pos
      (show tryMatch "ARG:1, ARG:2)".data =
        some (MatchCaps.mk ['A', 'R', 'G'] none ['1'], ", ARG:2)".data) by decide)]
    rw [hmiss1]
    have h2b : findRewrite csv ", ARG:2)".data = some ", ARG:2)".data := h2
    simp only [Option.bind_eq_bind, Option.some_bind, h2b]
    rfl
  have h0 : findRewrite csv ("@FUNC(ARG, ".data ++ "ARG:1, ARG:2)".data) =
      some ("@FUNC(ARG, ".data ++ "ARG:1, ARG:2)".data) := by
    rw [findRewrite_copy csv "@FUNC(ARG, ".data "ARG:1, ARG:2)".data (by decide), h1]
    rfl
  exact h0

/-- Witness for C4 (amended): the empty store loads no `ARG` family, so the
function-call text passes through unchanged. -/
theorem C4_witness :
    lookupFam "ARG" ([] : List (String × List (Nat × String))) = none ∧
      findRewrite { dic := [], explict_target := false }
          "@FUNC(ARG, ARG:1, ARG:2)".data =
        some "@FUNC(ARG, ARG:1, ARG:2)".data :=
  ⟨by decide,
    C4_amended { dic := [], explict_target := false } (by decide)⟩

/-- C7: the family used for the table lookup is
`aliasFamily (stripName BASE)` - the `NAME` suffix is stripped first, then
the static alias table is applied - and the outcome of `replace_append`
depends on the store's tables only through that aliased family's entry
(same `explict_target` flag assumed): the literal base name's table is
never consulted. -/
theorem C7_theorem (c1 c2 : CsvInfo) (caps : MatchCaps)
    (hexp : c1.explict_target = c2.explict_target)
    (hfam : lookupFam (aliasFamily (String.mk (stripName caps.var))) c1.dic =
      lookupFam (aliasFamily (String.mk (stripName caps.var))) c2.dic) :
    replace_append c1 caps = replace_append c2 caps := by
  unfold replace_append
  rw [hfam, hexp]

/-- Witness for C7: `UP:0` against a store where the literal family `UP`
maps 0 to `LIT` but the aliased family `JUEL` maps 0 to `G`, versus a
store holding only `JUEL`: both agree (the resolution uses `JUEL`, never
the literal `UP` table). -/
theorem C7_witness :
    lookupFam (aliasFamily (String.mk (stripName "UP".data)))
        ([("UP", [(0, "LIT")]), ("JUEL", [(0, "G")])] :
          List (String × List (Nat × String))) =
      lookupFam (aliasFamily (String.mk (stripName "UP".data)))
        ([("JUEL", [(0, "G")])] : List (String × List (Nat × String))) ∧
    replace_append
        { dic := [("UP", [(0, "LIT")]), ("JUEL", [(0, "G")])],
          explict_target := false }
        (MatchCaps.mk "UP".data none "0".data) =
      replace_append { dic := [("JUEL", [(0, "G")])], explict_target := false }
        (MatchCaps.mk "UP".data none "0".data) :=
  ⟨by decide,
    C7_theorem
      { dic := [("UP", [(0, "LIT")]), ("JUEL", [(0, "G")])],
        explict_target := false }
      { dic := [("JUEL", [(0, "G")])], explict_target := false }
      (MatchCaps.mk "UP".data none "0".data) (by decide) (by decide)⟩

/-- C6 counterexample: a table file for the per-character family `ABL`
without the byte-order mark loads as an EMPTY table that is nevertheless
PRESENT in the store; with explicit-scope mode on, the reference `ABL:0`
is then rewritten to `ABL:TARGET:0` - it does not behave as a family miss,
which would emit the original token unchanged. -/
theorem C6_counterexample :
    mkCsvInfo [("ABL", CsvFile.mk false [['0', ',', 'X']])]
        { includes := [], excludes := [], normalize := false,
          explict_target := true } =
      some { dic := [("ABL", [])], explict_target := true } ∧
    findRewrite { dic := [("ABL", [])], explict_target := true } "ABL:0".data =
      some "ABL:TARGET:0".data ∧
    some "ABL:TARGET:0".data ≠ some "ABL:0".data := by
  refine ⟨by decide, ?_, by decide⟩
  have h := findRewriteN_eq { dic := [("ABL", [])], explict_target := true }
    32 "ABL:0".data (by decide)
  rw [← h]
  decide

/-- C6 (amended): a table file without the byte-order mark is skipped with
a warning and contributes zero entries, but the family is PRESENT in the
store with an empty table; a reference to it therefore resolves as an
index miss - the original digits are kept, so the token is reproduced
unchanged except that explicit-scope mode may insert the `:TARGET` marker,
in which case the output differs from a family miss. -/
theorem C6_amended :
    (∀ (f : CsvFile) (norm : Bool), f.bom = false →
      parse_csv f norm = LoadResult.ok []) ∧
    (∀ (csv : CsvInfo) (var ds : List Char) (sc : Option (List Char)) (n : Nat),
      var ≠ [] → (∀ c ∈ var, isVarChar c = true) →
      ds ≠ [] → (∀ c ∈ ds, c.isDigit = true) →
      (∀ s, sc = some s → s ≠ [] ∧ ∀ c ∈ s, isScopeChar c = true) →
      lookupFam (aliasFamily (String.mk (stripName var))) csv.dic = some [] →
      parseU32 ds = some n →
      findRewrite csv
          (var ++ (match sc with | some s => ':' :: s | none => []) ++ ':' :: ds) =
        some (var ++ (match sc with
          | some s => ':' :: s
          | none =>
            if csv.explict_target && is_chara_csv (String.mk var) then
              [':', 'T', 'A', 'R', 'G', 'E', 'T']
            else []) ++ ':' :: ds)) := by
  constructor
  · intro f norm hb
    simp [parse_csv, hb]
  · intro csv var ds sc n hvne hv hdne hd hscwf hfam hn
    have hmiss : lookupN n ([] : List (Nat × String)) = none := by simp [lookupN]
    cases sc with
    | none =>
      have htok : var ++ ([] : List Char) ++ ':' :: ds = var ++ ':' :: ds := by simp
      rw [htok, findRewrite_single (tryMatch_token_plain hvne hv hdne hd)]
      unfold replace_append
      simp only [hfam, hn, hmiss]
    | some s =>
      obtain ⟨hsne, hsc⟩ := hscwf s rfl
      have htok : var ++ (':' :: s) ++ ':' :: ds = var ++ ':' :: (s ++ ':' :: ds) := by
        simp
      rw [htok, findRewrite_single (tryMatch_token_scope hvne hv hsne hsc hdne hd)]
      unfold replace_append
      simp only [hfam, hn, hmiss]
      simp

/-- Witness for C6 (amended): a BOM-less `ABL` file parses to the empty
table, and `ABL:7` against a store mapping `ABL` to the empty table (mode
off) is reproduced unchanged. -/
theorem C6_witness :
    (CsvFile.mk false [['0', ',', 'X']]).bom = false ∧
      parse_csv (CsvFile.mk false [['0', ',', 'X']]) false = LoadResult.ok [] ∧
      findRewrite { dic := [("ABL", [])], explict_target := false }
          ("ABL".data ++
            (match (none : Option (List Char)) with
              | some s => ':' :: s
              | none => []) ++ ':' :: "7".data) =
        some ("ABL".data ++
          (match (none : Option (List Char)) with
            | some s => ':' :: s
            | none =>
              if ({ dic := [("ABL", [])], explict_target := false } :
                    CsvInfo).explict_target && is_chara_csv (String.mk "ABL".data) then
                [':', 'T', 'A', 'R', 'G', 'E', 'T']
              else []) ++ ':' :: "7".data) :=
  ⟨rfl,
    C6_amended.1 (CsvFile.mk false [['0', ',', 'X']]) false rfl,
    C6_amended.2 { dic := [("ABL", [])], explict_target := false }
      "ABL".data "7".data none 7 (by decide) (by decide) (by decide) (by decide)
      (fun s hs => nomatch hs) (by decide) (by decide)⟩

/-- Lines that step to `skip` or `entry` advance `parseLines` to some
accumulator without erring or panicking. -/
theorem parseLines_skip_entries (norm : Bool) :
    ∀ (pre : List (List Char)) (acc : List (Nat × String)),
      (∀ x ∈ pre, lineStep norm x = LineOut.skip ∨
        ∃ m s, lineStep norm x = LineOut.entry m s) →
      ∃ acc2, ∀ ls, parseLines norm (pre ++ ls) acc = parseLines norm ls acc2 := by
  intro pre
  induction pre with
  | nil => exact fun acc _ => ⟨acc, fun ls => rfl⟩
  | cons x pre' ih =>
    intro acc h
    rcases h x (by simp) with hx | ⟨m, s, hx⟩
    · obtain ⟨acc2, ha⟩ := ih acc (fun y hy => h y (by simp [hy]))
      exact ⟨acc2, fun ls => by
        rw [List.cons_append]
        simp only [parseLines, hx]
        exact ha ls⟩
    · obtain ⟨acc2, ha⟩ := ih ((m, s) :: acc) (fun y hy => h y (by simp [hy]))
      exact ⟨acc2, fun ls => by
        rw [List.cons_append]
        simp only [parseLines, hx]
        exact ha ls⟩

/-- C3 counterexample: a table file for the (needed) family `MARK` whose
row `AB` has no comma separator makes `parse_csv` panic
(`line.find(',').unwrap()`), and the panic crashes the whole collection
run: `buildDic` yields no store at all instead of a store in which only
`MARK` is absent and `ABL` loaded. -/
theorem C3_counterexample :
    parse_csv (CsvFile.mk true [['A', 'B']]) false = LoadResult.panicked ∧
      buildDic
          [("MARK", CsvFile.mk true [['A', 'B']]),
           ("ABL", CsvFile.mk true [['0', ',', 'X']])]
          { includes := [], excludes := [], normalize := false,
            explict_target := false } = none ∧
      (none : Option (List (String × List (Nat × String)))) ≠
        some [("ABL", [(0, "X")])] :=
  ⟨by decide, by decide, by decide⟩

/-- C3 (amended): a row whose index field does not parse fails that file's
load (`Err`) and an erring file merely drops out of the collection, leaving
every other file's result unchanged; but a non-empty, non-comment row with
NO comma separator panics, and a panicking needed file aborts the whole
collection (`buildDic` yields nothing), not just that file. -/
theorem C3_amended :
    (∀ (norm : Bool) (pre : List (List Char)) (l : List Char)
        (post : List (List Char)),
      (∀ x ∈ pre, lineStep norm x = LineOut.skip ∨
        ∃ m s, lineStep norm x = LineOut.entry m s) →
      lineStep norm l = LineOut.noComma →
      parse_csv (CsvFile.mk true (pre ++ l :: post)) norm = LoadResult.panicked) ∧
    (∀ (norm : Bool) (pre : List (List Char)) (l : List Char)
        (post : List (List Char)),
      (∀ x ∈ pre, lineStep norm x = LineOut.skip ∨
        ∃ m s, lineStep norm x = LineOut.entry m s) →
      lineStep norm l = LineOut.errParse →
      parse_csv (CsvFile.mk true (pre ++ l :: post)) norm = LoadResult.err) ∧
    (∀ (opt : Opt) (name : String) (f : CsvFile)
        (l1 l2 : List (String × CsvFile)),
      parse_csv f opt.normalize = LoadResult.err →
      buildDic (l1 ++ (name, f) :: l2) opt = buildDic (l1 ++ l2) opt) ∧
    (∀ (opt : Opt) (name : String) (f : CsvFile)
        (l1 l2 : List (String × CsvFile)),
      is_need_csv (upperName name) opt = true →
      parse_csv f opt.normalize = LoadResult.panicked →
      buildDic (l1 ++ (name, f) :: l2) opt = none) := by
  refine ⟨?_, ?_, ?_, ?_⟩
  · intro norm pre l post hpre hl
    obtain ⟨acc2, ha⟩ := parseLines_skip_entries norm pre [] hpre
    simp only [parse_csv, if_true]
    rw [ha (l :: post)]
    simp only [parseLines, hl]
  · intro norm pre l post hpre hl
    obtain ⟨acc2, ha⟩ := parseLines_skip_entries norm pre [] hpre
    simp only [parse_csv, if_true]
    rw [ha (l :: post)]
    simp only [parseLines, hl]
  · intro opt name f l1 l2 herr
    induction l1 with
    | nil =>
      simp only [List.nil_append, buildDic, herr]
      split <;> rfl
    | cons hd l1' ih =>
      obtain ⟨s1, f1⟩ := hd
      simp only [List.cons_append, buildDic, List.append_eq]
      rw [ih]
  · intro opt name f l1 l2 hneed hpan
    induction l1 with
    | nil =>
      simp only [List.nil_append, buildDic, hneed, if_true, hpan]
    | cons hd l1' ih =>
      obtain ⟨s1, f1⟩ := hd
      simp only [List.cons_append, buildDic, List.append_eq]
      rw [ih]
      split
      · cases parse_csv f1 opt.normalize <;> rfl
      · rfl

/-- Witness for C3 (amended): the comma-less row `AB` panics the file
load, and a file whose row `z,Y` has a non-numeric index drops out of the
collection without affecting the sibling `ABL` file. -/
theorem C3_witness :
    lineStep false ['A', 'B'] = LineOut.noComma ∧
      parse_csv (CsvFile.mk true ([] ++ ['A', 'B'] :: [])) false =
        LoadResult.panicked ∧
      buildDic
          ([("ABL", CsvFile.mk true [['0', ',', 'X']])] ++
            ("STR", CsvFile.mk true [['z', ',', 'Y']]) :: [])
          { includes := [], excludes := [], normalize := false,
            explict_target := false } =
        buildDic ([("ABL", CsvFile.mk true [['0', ',', 'X']])] ++ [])
          { includes := [], excludes := [], normalize := false,
            explict_target := false } :=
  ⟨by decide,
    C3_amended.1 false [] ['A', 'B'] [] (by simp) (by decide),
    C3_amended.2.2.1
      { includes := [], excludes := [], normalize := false,
        explict_target := false }
      "STR" (CsvFile.mk true [['z', ',', 'Y']])
      [("ABL", CsvFile.mk true [['0', ',', 'X']])] [] (by decide)⟩

/-- Lines that never touch index `n` load successfully and leave the entry
for `n` unchanged. -/
theorem parseLines_preserves (norm : Bool) :
    ∀ (ls : List (List Char)) (acc : List (Nat × String)) (n : Nat),
      (∀ x ∈ ls, lineStep norm x = LineOut.skip ∨
        ∃ m s, lineStep norm x = LineOut.entry m s ∧ m ≠ n) →
      ∃ tbl, parseLines norm ls acc = LoadResult.ok tbl ∧
        lookupN n tbl = lookupN n acc := by
  intro ls
  induction ls with
  | nil => exact fun acc n _ => ⟨acc, rfl, rfl⟩
  | cons x ls' ih =>
    intro acc n h
    rcases h x (by simp) with hx | ⟨m, s, hx, hmn⟩
    · obtain ⟨tbl, hp, hl⟩ := ih acc n (fun y hy => h y (by simp [hy]))
      exact ⟨tbl, by simp only [parseLines, hx]; exact hp, hl⟩
    · obtain ⟨tbl, hp, hl⟩ := ih ((m, s) :: acc) n (fun y hy => h y (by simp [hy]))
      refine ⟨tbl, by simp only [parseLines, hx]; exact hp, ?_⟩
      rw [hl]
      have hmneq : (m == n) = false := by
        simp only [beq_eq_false_iff_ne, ne_eq]
        exact hmn
      simp [lookupN, List.find?_cons, hmneq]

/-- C10: in a table file holding two well-formed rows with the same index
(with well-behaved company: preceding rows load or skip, following rows
never write that index), loading succeeds with no duplicate report and the
loaded family maps the index to the name of the LATER row - the last
insertion wins, as for `HashMap::insert`. -/
theorem C10_theorem (norm : Bool) (pre : List (List Char)) (r1 r2 : List Char)
    (rest : List (List Char)) (n : Nat) (nm1 nm2 : String)
    (hpre : ∀ x ∈ pre, lineStep norm x = LineOut.skip ∨
      ∃ m s, lineStep norm x = LineOut.entry m s)
    (h1 : lineStep norm r1 = LineOut.entry n nm1)
    (h2 : lineStep norm r2 = LineOut.entry n nm2)
    (hrest : ∀ x ∈ rest, lineStep norm x = LineOut.skip ∨
      ∃ m s, lineStep norm x = LineOut.entry m s ∧ m ≠ n) :
    ∃ tbl, parse_csv (CsvFile.mk true (pre ++ r1 :: r2 :: rest)) norm =
        LoadResult.ok tbl ∧ lookupN n tbl = some nm2 := by
  obtain ⟨acc2, ha⟩ := parseLines_skip_entries norm pre [] hpre
  obtain ⟨tbl, hp, hl⟩ :=
    parseLines_preserves norm rest ((n, nm2) :: (n, nm1) :: acc2) n hrest
  refine ⟨tbl, ?_, ?_⟩
  · simp only [parse_csv, if_true]
    rw [ha (r1 :: r2 :: rest)]
    simp only [parseLines, h1, h2]
    exact hp
  · rw [hl]
    simp [lookupN, List.find?_cons]

/-- Witness for C10: the two-row file `0,A` then `0,B` loads to a table
mapping 0 to `B`. -/
theorem C10_witness :
    lineStep false ['0', ',', 'A'] = LineOut.entry 0 "A" ∧
      lineStep false ['0', ',', 'B'] = LineOut.entry 0 "B" ∧
      ∃ tbl, parse_csv (CsvFile.mk true
          ([] ++ ['0', ',', 'A'] :: ['0', ',', 'B'] :: [])) false =
          LoadResult.ok tbl ∧ lookupN 0 tbl = some "B" :=
  ⟨by decide, by decide,
    C10_theorem false [] ['0', ',', 'A'] ['0', ',', 'B'] [] 0 "A" "B"
      (by simp) (by decide) (by decide) (by simp)⟩

/-- C9 counterexample: with the store `{A ↦ {12 ↦ "V", 34 ↦ "W"}}` (no
display name even contains a digit, so the claim's proviso holds), the
input `A:12:34` rewrites to `A:12:W` (scope `12`, index `34`); running the
Resolver again re-tokenizes that output as base `A`, NO scope, index `12`
(the scoped alternative now fails on the non-digit `W`), producing
`A:V:W`: the second run is not a no-op. -/
theorem C9_counterexample :
    findRewrite { dic := [("A", [(12, "V"), (34, "W")])], explict_target := false }
        "A:12:34".data = some "A:12:W".data ∧
      findRewrite { dic := [("A", [(12, "V"), (34, "W")])], explict_target := false }
        "A:12:W".data = some "A:V:W".data ∧
      some "A:V:W".data ≠ some "A:12:W".data := by
  refine ⟨?_, ?_, by decide⟩
  · have h := findRewriteN_eq
      { dic := [("A", [(12, "V"), (34, "W")])], explict_target := false }
      32 "A:12:34".data (by decide)
    rw [← h]
    decide
  · have h := findRewriteN_eq
      { dic := [("A", [(12, "V"), (34, "W")])], explict_target := false }
      32 "A:12:W".data (by decide)
    rw [← h]
    decide

/-- C9 (amended): on an input that is a single scope-free token
`BASE:INDEX`, a second run of the Resolver over the output is a no-op,
provided every display name the token can resolve to contains neither a
colon nor any Unicode decimal digit (`isNd`, the crate's full `\d` class
`\p{Nd}` - not merely ASCII digits, so the hypothesis covers every
character the program could re-match).  (In general idempotence fails even
under the claim's weaker proviso: see the counterexample, where a scoped
token with an all-digit scope re-tokenizes after rewriting.) -/
theorem C9_amended (csv : CsvInfo) (var ds t1 : List Char)
    (hvne : var ≠ []) (hv : ∀ c ∈ var, isVarChar c = true)
    (hdne : ds ≠ []) (hd : ∀ c ∈ ds, c.isDigit = true)
    (hname : ∀ tbl n nm,
      lookupFam (aliasFamily (String.mk (stripName var))) csv.dic = some tbl →
      parseU32 ds = some n → lookupN n tbl = some nm →
      ∀ c ∈ nm.data, c ≠ ':' ∧ isNd c = false)
    (h1 : findRewrite csv (var ++ ':' :: ds) = some t1) :
    findRewrite csv t1 = some t1 := by
  have htm := tryMatch_token_plain hvne hv hdne hd
  rw [findRewrite_single htm] at h1
  unfold replace_append at h1
  cases hfam : lookupFam (aliasFamily (String.mk (stripName var))) csv.dic with
  | none =>
    simp only [hfam, matchText, Option.some.injEq] at h1
    subst h1
    rw [findRewrite_single (by simpa using htm)]
    unfold replace_append
    simp [hfam, matchText]
  | some tbl =>
    simp only [hfam] at h1
    cases hn : parseU32 ds with
    | none =>
      simp only [hn] at h1
      exact absurd h1 (by simp)
    | some n =>
      simp only [hn] at h1
      cases hlk : lookupN n tbl with
      | none =>
        simp only [hlk] at h1
        by_cases hb : (csv.explict_target && is_chara_csv (String.mk var)) = true
        · simp only [hb, if_true, Option.some.injEq] at h1
          subst h1
          have hre : var ++ [':', 'T', 'A', 'R', 'G', 'E', 'T'] ++ ':' :: ds =
              var ++ ':' :: (['T', 'A', 'R', 'G', 'E', 'T'] ++ ':' :: ds) := by
            simp
          rw [hre, findRewrite_single (tryMatch_token_scope hvne hv (by decide)
            (by decide) hdne hd)]
          unfold replace_append
          simp only [hfam, hn, hlk]
          simp
        · simp only [Bool.not_eq_true] at hb
          simp only [hb] at h1
          simp only [Bool.false_eq_true, if_false, List.append_nil,
            Option.some.injEq] at h1
          subst h1
          rw [findRewrite_single htm]
          unfold replace_append
          simp [hfam, hn, hlk, hb]
      | some nm =>
        have hclean := hname tbl n nm hfam hn hlk
        have hnc : ':' ∉ nm.data := fun hm => (hclean ':' hm).1 rfl
        have hnd : ∀ c ∈ nm.data, c.isDigit = false :=
          fun c hm => not_isNd_isDigit (hclean c hm).2
        simp only [hlk] at h1
        by_cases hb : (csv.explict_target && is_chara_csv (String.mk var)) = true
        · simp only [hb, if_true, Option.some.injEq] at h1
          subst h1
          have hre : var ++ [':', 'T', 'A', 'R', 'G', 'E', 'T'] ++ ':' :: nm.data =
              var ++ ':' :: (['T', 'A', 'R', 'G', 'E', 'T'] ++ ':' :: nm.data) := by
            simp
          rw [hre]
          exact findRewrite_sep2 csv var ['T', 'A', 'R', 'G', 'E', 'T'] nm.data
            hv (by decide) (by decide) (by decide)
            (by
              intro x xs he
              simp only [List.cons.injEq] at he
              rw [← he.1]
              decide) hnc hnd
        · simp only [Bool.not_eq_true] at hb
          simp only [hb] at h1
          simp only [Bool.false_eq_true, if_false, List.append_nil,
            Option.some.injEq] at h1
          subst h1
          exact findRewrite_sep csv var nm.data hv hnc hnd

/-- Witness for C9 (amended): `ABL:0` against `{ABL ↦ {0 ↦ "C"}}` with
explicit-scope mode on rewrites to `ABL:TARGET:C`, and a second run leaves
that output unchanged. -/
theorem C9_witness :
    findRewrite { dic := [("ABL", [(0, "C")])], explict_target := true }
        ("ABL".data ++ ':' :: "0".data) = some "ABL:TARGET:C".data ∧
      findRewrite { dic := [("ABL", [(0, "C")])], explict_target := true }
        "ABL:TARGET:C".data = some "ABL:TARGET:C".data := by
  have hrun : findRewrite { dic := [("ABL", [(0, "C")])], explict_target := true }
      ("ABL".data ++ ':' :: "0".data) = some "ABL:TARGET:C".data := by
    have h := findRewriteN_eq { dic := [("ABL", [(0, "C")])], explict_target := true }
      32 ("ABL".data ++ ':' :: "0".data) (by decide)
    rw [← h]
    decide
  refine ⟨hrun, ?_⟩
  exact C9_amended { dic := [("ABL", [(0, "C")])], explict_target := true }
    "ABL".data "0".data "ABL:TARGET:C".data (by decide) (by decide) (by decide)
    (by decide)
    (by
      intro tbl n nm h1 h2 h3
      have hc : lookupFam (aliasFamily (String.mk (stripName "ABL".data)))
          ({ dic := [("ABL", [(0, "C")])], explict_target := true } : CsvInfo).dic =
          some [(0, "C")] := by decide
      rw [hc] at h1
      injection h1 with h1
      subst h1
      have hn0 : parseU32 "0".data = some 0 := by decide
      rw [hn0] at h2
      injection h2 with h2
      subst h2
      have hl0 : lookupN 0 [(0, "C")] = some "C" := by decide
      rw [hl0] at h3
      injection h3 with h3
      subst h3
      decide)
    hrun
